import Mathlib

/-!
# Verification of the TurfAnalyzer core

Shallow embedding of `src/turf_analyzer.py` (class `TURFAnalyzer` with
`calculate_combined_reach` and `analyze`) and `src/utils.py`
(`validate_data`), together with theorems settling the specification
claims about them.

Modelling conventions:
* A pandas `DataFrame` of binary reach indicators is a `DataFrame`:
  an ordered list of feature (column) names and a list of rows of `Bool`.
* `calculate_combined_reach` counts rows where at least one selected
  column is `true` (pandas `subset.any(axis=1)` then `.sum()`).
* Python's stable `sorted(..., key=..., reverse=True)` is modelled by a
  stable insertion sort `sortDesc` (ties keep original order).
* `itertools.combinations(l, s)` is modelled by `combos s l`, which
  yields length-`s` sublists in the same lexicographic order.
* Python floats produced by `x / n * 100` are modelled as exact
  rationals `ℚ`.
* `validate_data` works on a `RawFrame` whose cells are `PyVal`
  (integer, boolean or string scalars); Python's
  `set(vals).issubset({0, 1, True, False})` uses Python equality, under
  which `True == 1` and `False == 0`.
-/

/-- A Python scalar as it can appear in a raw uploaded DataFrame cell:
an integer, a boolean, or a string. -/
inductive PyVal where
  | int (n : Int)
  | bool (b : Bool)
  | str (s : String)
deriving DecidableEq, Repr

/-- The validated binary reach matrix held by `TURFAnalyzer.__init__`:
`features = data.columns.tolist()`, rows of boolean reach indicators;
`n_respondents = len(data)` is `rows.length`. -/
structure DataFrame where
  features : List String
  rows : List (List Bool)
deriving DecidableEq, Repr

/-- Whether a row is reached by at least one feature of `combo`
(pandas `subset.any(axis=1)`): column lookup is by feature name via its
position in `df.features`. -/
def rowReached (df : DataFrame) (combo : List String) (row : List Bool) : Bool :=
  combo.any (fun f => row.getD (df.features.indexOf f) false)

/-- `TURFAnalyzer.calculate_combined_reach`: `0` for the empty
combination, else the count of respondents reached by at least one
selected feature. -/
def calculate_combined_reach (df : DataFrame) (combo : List String) : Nat :=
  if combo.isEmpty then 0
  else df.rows.countP (rowReached df combo)

/-- Insert `x` into `l` keeping a descending order by `reach`; on ties
`x` stays before later elements, matching Python's stable sort. -/
def insertDesc (reach : String → Nat) (x : String) : List String → List String
  | [] => [x]
  | y :: ys => if reach y ≤ reach x then x :: y :: ys else y :: insertDesc reach x ys

/-- Stable descending sort by `reach`, modelling
`sorted(features, key=lambda x: individual_reach[x], reverse=True)`. -/
def sortDesc (reach : String → Nat) : List String → List String
  | [] => []
  | x :: xs => insertDesc reach x (sortDesc reach xs)

/-- `itertools.combinations(l, s)`: all length-`s` sublists of `l`, in
lexicographic order over the positions of `l`. -/
def combos : Nat → List String → List (List String)
  | 0, _ => [[]]
  | _ + 1, [] => []
  | s + 1, x :: xs => (combos s xs).map (x :: ·) ++ combos (s + 1) xs

/-- The feature list `analyze` sorts once up front: features in
descending order of individual reach, ties by original column order. -/
def sortedFeatures (df : DataFrame) : List String :=
  sortDesc (fun f => calculate_combined_reach df [f]) df.features

/-- The full sequence of candidate combinations `analyze` scores, in
order: for each `size` in `1..max_combinations`, the combinations of
`size` features drawn from
`sorted_features[:min(len(sorted_features), size + 5)]`. -/
def enumCombos (df : DataFrame) (max_combinations : Nat) : List (List String) :=
  (List.range max_combinations).flatMap (fun i =>
    combos (i + 1)
      ((sortedFeatures df).take (min (sortedFeatures df).length ((i + 1) + 5))))

/-- One step of the search loop: update `(best_combination, max_reach)`
only on a strict improvement (`if reach > max_reach`). -/
def bestStep (r : List String → Nat) (acc : List String × Nat) (c : List String) :
    List String × Nat :=
  if acc.2 < r c then (c, r c) else acc

/-- The result dictionary returned by `TURFAnalyzer.analyze`. -/
structure CombinationResult where
  best_combination : List String
  max_reach : Nat
  incremental_reach : List Nat
  reach_percentages : List ℚ
  total_respondents : Nat
deriving DecidableEq, Repr

/-- The `(best_combination, max_reach)` pair after the search loop of
`analyze`: a left fold of `bestStep` over the scored combinations,
starting from `([], 0)`. -/
def bestPair (df : DataFrame) (max_combinations : Nat) : List String × Nat :=
  (enumCombos df max_combinations).foldl
    (bestStep (calculate_combined_reach df)) ([], 0)

/-- The incremental-reach list: the coverage of each successive prefix
`best[:i+1]` of the winning combination. -/
def incrementalReach (df : DataFrame) (best : List String) : List Nat :=
  (List.range best.length).map
    (fun i => calculate_combined_reach df (best.take (i + 1)))

/-- `TURFAnalyzer.analyze`: sort features by individual reach, scan the
(windowed) combinations keeping the strictly best, then compute the
incremental reach of each prefix of the winner and the corresponding
percentages. -/
def analyze (df : DataFrame) (max_combinations : Nat) : CombinationResult :=
  { best_combination := (bestPair df max_combinations).1
    max_reach := (bestPair df max_combinations).2
    incremental_reach := incrementalReach df (bestPair df max_combinations).1
    reach_percentages :=
      (incrementalReach df (bestPair df max_combinations).1).map
        (fun c : Nat => (c : ℚ) / (df.rows.length : ℚ) * 100)
    total_respondents := df.rows.length }

/-- The reference search the spec demands: every combination of every
size `1..max_combinations` drawn from the full feature list in its
original order, with no narrowing. -/
def specEnumCombos (df : DataFrame) (max_combinations : Nat) : List (List String) :=
  (List.range max_combinations).flatMap (fun i => combos (i + 1) df.features)

/-- Maximum of a list of naturals with default `0`. -/
def listMax (l : List Nat) : Nat := l.foldr max 0

/-- The true optimum the spec describes: the maximum coverage over every
non-empty subset of the feature set of size at most
`max_combinations`. -/
def maxCoverage (df : DataFrame) (max_combinations : Nat) : Nat :=
  listMax ((specEnumCombos df max_combinations).map (calculate_combined_reach df))

/-- Whether a cell value passes Python's
`set(unique_vals).issubset({0, 1, True, False})`: under Python equality
`True == 1` and `False == 0`, so integers `0`/`1` and both booleans
pass, every other integer and every string fails. -/
def validValue : PyVal → Bool
  | .int n => n = 0 || n = 1
  | .bool _ => true
  | .str _ => false

/-- A raw uploaded table before validation: column names plus rows of
arbitrary Python scalars. -/
structure RawFrame where
  colNames : List String
  rows : List (List PyVal)
deriving DecidableEq, Repr

/-- `utils.validate_data`: `False` if there are no columns or no rows,
else `True` iff each column's values all lie in `{0, 1, True, False}`. -/
def validate_data (df : RawFrame) : Bool :=
  if df.colNames.length = 0 then false
  else if df.rows.length = 0 then false
  else (List.range df.colNames.length).all (fun j =>
    df.rows.all (fun row => validValue (row.getD j (.int 0))))

/-- Scenario A of the spec: 4 respondents × 2 features,
`F1 = [1,1,0,0]`, `F2 = [0,1,1,0]`. -/
def scenarioA : DataFrame :=
  { features := ["F1", "F2"]
    rows := [[true, false], [true, true], [false, true], [false, false]] }

/-- An 8-feature, 10-respondent matrix defeating the `size + 5`
narrowing: features `f1..f7` each reach respondents 0-5, feature `f8`
reaches respondents 6-9; the optimal pair `{f1, f8}` reaches all 10,
but for `size = 2` only the top 7 features (`f1..f7`) are tried. -/
def cexDF : DataFrame :=
  { features := ["f1", "f2", "f3", "f4", "f5", "f6", "f7", "f8"]
    rows :=
      [[true, true, true, true, true, true, true, false],
       [true, true, true, true, true, true, true, false],
       [true, true, true, true, true, true, true, false],
       [true, true, true, true, true, true, true, false],
       [true, true, true, true, true, true, true, false],
       [true, true, true, true, true, true, true, false],
       [false, false, false, false, false, false, false, true],
       [false, false, false, false, false, false, false, true],
       [false, false, false, false, false, false, false, true],
       [false, false, false, false, false, false, false, true]] }

/-- A one-feature matrix whose only feature reaches nobody: every
candidate's coverage is `0`, so the search never updates its initial
state and `best_combination` stays empty. -/
def zeroDF : DataFrame :=
  { features := ["Z"], rows := [[false]] }

/-! ## Basic lemmas about `listMax` -/

theorem le_listMax_of_mem {l : List Nat} {x : Nat} (hx : x ∈ l) : x ≤ listMax l := by
  induction l with
  | nil => cases hx
  | cons y ys ih =>
    rcases List.mem_cons.mp hx with h | h
    · subst h; exact le_max_left _ _
    · exact le_trans (ih h) (le_max_right _ _)

theorem listMax_le {l : List Nat} {m : Nat} (h : ∀ x ∈ l, x ≤ m) : listMax l ≤ m := by
  induction l with
  | nil => exact Nat.zero_le m
  | cons y ys ih =>
    exact max_le (h y (List.mem_cons_self _ _))
      (ih (fun x hx => h x (List.mem_cons_of_mem _ hx)))

theorem listMax_eq_zero_or_mem (l : List Nat) : listMax l = 0 ∨ listMax l ∈ l := by
  induction l with
  | nil => exact Or.inl rfl
  | cons y ys ih =>
    have hcons : listMax (y :: ys) = max y (listMax ys) := rfl
    rcases max_choice y (listMax ys) with h | h
    · exact Or.inr (by rw [hcons, h]; exact List.mem_cons_self _ _)
    · rcases ih with h0 | hm
      · exact Or.inl (by rw [hcons, h, h0])
      · exact Or.inr (by rw [hcons, h]; exact List.mem_cons_of_mem _ hm)

theorem listMax_le_listMax {a b : List Nat} (h : ∀ x ∈ a, x ∈ b) :
    listMax a ≤ listMax b :=
  listMax_le (fun x hx => le_listMax_of_mem (h x hx))

/-! ## Lemmas about the search fold `bestStep` -/

theorem foldl_bestStep_snd (r : List String → Nat) (l : List (List String)) :
    ∀ b0 m0, (l.foldl (bestStep r) (b0, m0)).2 = max m0 (listMax (l.map r)) := by
  induction l with
  | nil => intro b0 m0; simp [listMax]
  | cons c t ih =>
    intro b0 m0
    rw [List.foldl_cons, bestStep]
    by_cases h : m0 < r c
    · rw [if_pos h, ih]
      simp only [List.map_cons, listMax, List.foldr_cons]
      rw [← listMax, ← max_assoc, max_comm m0 (r c),
        max_eq_left (le_of_lt h)]
    · rw [if_neg h, ih]
      simp only [List.map_cons, listMax, List.foldr_cons]
      rw [← listMax, ← max_assoc, max_eq_left (le_of_not_lt h)]

theorem foldl_bestStep_snd_ge (r : List String → Nat) (l : List (List String))
    (b0 : List String) (m0 : Nat) : m0 ≤ (l.foldl (bestStep r) (b0, m0)).2 := by
  rw [foldl_bestStep_snd]; exact le_max_left _ _

theorem foldl_bestStep_no_improve (r : List String → Nat) {l : List (List String)}
    {m0 : Nat} (h : ∀ c ∈ l, r c ≤ m0) (b0 : List String) :
    l.foldl (bestStep r) (b0, m0) = (b0, m0) := by
  induction l with
  | nil => rfl
  | cons c t ih =>
    rw [List.foldl_cons, bestStep,
      if_neg (not_lt.mpr (h c (List.mem_cons_self _ _)))]
    exact ih (fun x hx => h x (List.mem_cons_of_mem _ hx))

theorem foldl_bestStep_fst_of_snd_eq (r : List String → Nat) :
    ∀ (l : List (List String)) (b0 : List String) (m0 : Nat),
      (l.foldl (bestStep r) (b0, m0)).2 = m0 → (l.foldl (bestStep r) (b0, m0)).1 = b0 := by
  intro l
  induction l with
  | nil => intro b0 m0 _; rfl
  | cons c t ih =>
    intro b0 m0 hsnd
    rw [List.foldl_cons, bestStep] at hsnd ⊢
    by_cases h : m0 < r c
    · exfalso
      rw [if_pos h] at hsnd
      have hge := foldl_bestStep_snd_ge r t c (r c)
      rw [hsnd] at hge
      exact absurd h (not_lt.mpr hge)
    · rw [if_neg h] at hsnd ⊢
      exact ih b0 m0 hsnd

theorem foldl_bestStep_attains (r : List String → Nat) :
    ∀ (l : List (List String)) (b0 : List String) (m0 : Nat),
      (l.foldl (bestStep r) (b0, m0) = (b0, m0)) ∨
        r (l.foldl (bestStep r) (b0, m0)).1 = (l.foldl (bestStep r) (b0, m0)).2 := by
  intro l
  induction l with
  | nil => intro b0 m0; exact Or.inl rfl
  | cons c t ih =>
    intro b0 m0
    rw [List.foldl_cons, bestStep]
    by_cases h : m0 < r c
    · rw [if_pos h]
      rcases ih c (r c) with heq | hr
      · exact Or.inr (by rw [heq])
      · exact Or.inr hr
    · rw [if_neg h]
      rcases ih b0 m0 with heq | hr
      · exact Or.inl heq
      · exact Or.inr hr

theorem foldl_bestStep_first (r : List String → Nat) :
    ∀ (l : List (List String)) (b0 : List String) (m0 : Nat),
      m0 < (l.foldl (bestStep r) (b0, m0)).2 →
      ∃ pre post, l = pre ++ (l.foldl (bestStep r) (b0, m0)).1 :: post ∧
        r (l.foldl (bestStep r) (b0, m0)).1 = (l.foldl (bestStep r) (b0, m0)).2 ∧
        ∀ c ∈ pre, r c < (l.foldl (bestStep r) (b0, m0)).2 := by
  intro l
  induction l with
  | nil => intro b0 m0 h; exact absurd h (lt_irrefl m0)
  | cons c t ih =>
    intro b0 m0 h
    rw [List.foldl_cons, bestStep] at h ⊢
    by_cases hc : m0 < r c
    · rw [if_pos hc] at h ⊢
      by_cases h2 : r c < (t.foldl (bestStep r) (c, r c)).2
      · obtain ⟨pre, post, heq, hr, hpre⟩ := ih c (r c) h2
        refine ⟨c :: pre, post, by rw [List.cons_append, ← heq], hr, ?_⟩
        intro x hx
        rcases List.mem_cons.mp hx with rfl | hx'
        · exact h2
        · exact hpre x hx'
      · have hsnd : (t.foldl (bestStep r) (c, r c)).2 = r c :=
          le_antisymm (not_lt.mp h2) (foldl_bestStep_snd_ge r t c (r c))
        have hfst := foldl_bestStep_fst_of_snd_eq r t c (r c) hsnd
        exact ⟨[], t, by rw [List.nil_append, hfst], by rw [hfst, hsnd],
          fun x hx => absurd hx (List.not_mem_nil x)⟩
    · rw [if_neg hc] at h ⊢
      obtain ⟨pre, post, heq, hr, hpre⟩ := ih b0 m0 h
      refine ⟨c :: pre, post, by rw [List.cons_append, ← heq], hr, ?_⟩
      intro x hx
      rcases List.mem_cons.mp hx with rfl | hx'
      · exact lt_of_le_of_lt (not_lt.mp hc) h
      · exact hpre x hx'

/-! ## Lemmas about `calculate_combined_reach` -/

theorem calculate_combined_reach_nil (df : DataFrame) :
    calculate_combined_reach df [] = 0 := rfl

theorem calculate_combined_reach_le (df : DataFrame) (S : List String) :
    calculate_combined_reach df S ≤ df.rows.length := by
  unfold calculate_combined_reach
  split
  · exact Nat.zero_le _
  · exact List.countP_le_length _

theorem rowReached_mono {df : DataFrame} {S T : List String} {row : List Bool}
    (h : ∀ f ∈ S, f ∈ T) :
    rowReached df S row = true → rowReached df T row = true := by
  simp only [rowReached, List.any_eq_true]
  rintro ⟨f, hf, hval⟩
  exact ⟨f, h f hf, hval⟩

theorem calculate_combined_reach_mono (df : DataFrame) {S T : List String}
    (h : ∀ f ∈ S, f ∈ T) :
    calculate_combined_reach df S ≤ calculate_combined_reach df T := by
  unfold calculate_combined_reach
  by_cases hS : S.isEmpty
  · rw [if_pos hS]
    exact Nat.zero_le _
  · rw [if_neg hS]
    have hT : ¬T.isEmpty = true := by
      cases S with
      | nil => simp at hS
      | cons a as =>
        have ha : a ∈ T := h a (List.mem_cons_self _ _)
        cases T with
        | nil => cases ha
        | cons b bs => simp
    rw [if_neg hT]
    exact List.countP_mono_left (fun row _ hrow => rowReached_mono h hrow)

theorem calculate_combined_reach_perm (df : DataFrame) {S T : List String}
    (h : S.Perm T) :
    calculate_combined_reach df S = calculate_combined_reach df T :=
  le_antisymm
    (calculate_combined_reach_mono df (fun f hf => h.mem_iff.mp hf))
    (calculate_combined_reach_mono df (fun f hf => h.mem_iff.mpr hf))

/-! ## Membership in `combos` -/

theorem mem_combos : ∀ (l : List String) (s : Nat) (c : List String),
    c ∈ combos s l ↔ c.Sublist l ∧ c.length = s := by
  intro l
  induction l with
  | nil =>
    intro s c
    cases s with
    | zero =>
      simp only [combos, List.mem_singleton]
      constructor
      · rintro rfl; exact ⟨List.nil_sublist _, rfl⟩
      · rintro ⟨hs, _⟩; exact List.sublist_nil.mp hs
    | succ n =>
      simp only [combos, List.not_mem_nil, false_iff, not_and]
      intro hs hl
      rw [List.sublist_nil.mp hs] at hl
      exact absurd hl.symm (Nat.succ_ne_zero n)
  | cons x xs ih =>
    intro s c
    cases s with
    | zero =>
      simp only [combos, List.mem_singleton]
      constructor
      · rintro rfl; exact ⟨List.nil_sublist _, rfl⟩
      · rintro ⟨_, hl⟩; exact List.eq_nil_of_length_eq_zero hl
    | succ n =>
      simp only [combos, List.mem_append, List.mem_map]
      constructor
      · rintro (⟨c0, hc0, rfl⟩ | hc)
        · obtain ⟨hsub, hlen⟩ := (ih n c0).mp hc0
          exact ⟨hsub.cons₂ x, by simp [hlen]⟩
        · obtain ⟨hsub, hlen⟩ := (ih (n + 1) c).mp hc
          exact ⟨hsub.cons x, hlen⟩
      · rintro ⟨hsub, hlen⟩
        rcases List.sublist_cons_iff.mp hsub with hsub' | ⟨rest, rfl, hrest⟩
        · exact Or.inr ((ih (n + 1) c).mpr ⟨hsub', hlen⟩)
        · exact Or.inl ⟨rest, (ih n rest).mpr ⟨hrest, by simpa using hlen⟩, rfl⟩

/-! ## Lemmas about the stable descending sort -/

theorem insertDesc_perm (reach : String → Nat) (x : String) :
    ∀ l : List String, (insertDesc reach x l).Perm (x :: l) := by
  intro l
  induction l with
  | nil => exact List.Perm.refl _
  | cons y ys ih =>
    rw [insertDesc]
    split
    · exact List.Perm.refl _
    · exact (List.Perm.cons y ih).trans (List.Perm.swap x y ys)

theorem sortDesc_perm (reach : String → Nat) :
    ∀ l : List String, (sortDesc reach l).Perm l := by
  intro l
  induction l with
  | nil => exact List.Perm.refl _
  | cons x xs ih =>
    exact (insertDesc_perm reach x (sortDesc reach xs)).trans (List.Perm.cons x ih)

theorem sortDesc_length (reach : String → Nat) (l : List String) :
    (sortDesc reach l).length = l.length :=
  (sortDesc_perm reach l).length_eq

theorem insertDesc_pairwise (reach : String → Nat) (x : String) {l : List String}
    (h : l.Pairwise (fun a b => reach b ≤ reach a)) :
    (insertDesc reach x l).Pairwise (fun a b => reach b ≤ reach a) := by
  induction l with
  | nil => exact List.pairwise_singleton _ x
  | cons y ys ih =>
    rw [insertDesc]
    rcases List.pairwise_cons.mp h with ⟨hy, hys⟩
    split
    · rename_i hxy
      exact List.pairwise_cons.mpr
        ⟨fun z hz => by
          rcases List.mem_cons.mp hz with rfl | hz'
          · exact hxy
          · exact le_trans (hy z hz') hxy, h⟩
    · rename_i hxy
      have hx : reach x ≤ reach y := le_of_lt (lt_of_not_le hxy)
      refine List.pairwise_cons.mpr ⟨fun z hz => ?_, ih hys⟩
      rcases List.mem_cons.mp ((insertDesc_perm reach x ys).mem_iff.mp hz) with rfl | h2
      · exact hx
      · exact hy z h2

theorem sortDesc_pairwise (reach : String → Nat) :
    ∀ l : List String, (sortDesc reach l).Pairwise (fun a b => reach b ≤ reach a) := by
  intro l
  induction l with
  | nil => exact List.Pairwise.nil
  | cons x xs ih => exact insertDesc_pairwise reach x ih

theorem insertDesc_filter (reach : String → Nat) (x : String) (v : Nat) :
    ∀ l : List String,
      (insertDesc reach x l).filter (fun z => reach z == v) =
        if reach x = v then x :: l.filter (fun z => reach z == v)
        else l.filter (fun z => reach z == v) := by
  intro l
  induction l with
  | nil =>
    by_cases hx : reach x = v
    · simp [insertDesc, hx]
    · simp [insertDesc, hx]
  | cons y ys ih =>
    rw [insertDesc]
    by_cases hxy : reach y ≤ reach x
    · rw [if_pos hxy]
      by_cases hx : reach x = v
      · simp [List.filter_cons, hx]
      · simp [List.filter_cons, hx]
    · rw [if_neg hxy]
      have hlt : reach x < reach y := lt_of_not_le hxy
      by_cases hx : reach x = v
      · have hyv : ¬reach y = v := by
          intro hyv
          rw [hx, hyv] at hlt
          exact lt_irrefl v hlt
        rw [if_pos hx]
        have h1 : (y :: insertDesc reach x ys).filter (fun z => reach z == v) =
            (insertDesc reach x ys).filter (fun z => reach z == v) := by
          simp [List.filter_cons, hyv]
        have h2 : (y :: ys).filter (fun z => reach z == v) =
            ys.filter (fun z => reach z == v) := by
          simp [List.filter_cons, hyv]
        rw [h1, h2, ih, if_pos hx]
      · rw [if_neg hx]
        by_cases hyv : reach y = v
        · have h1 : (y :: insertDesc reach x ys).filter (fun z => reach z == v) =
              y :: (insertDesc reach x ys).filter (fun z => reach z == v) := by
            simp [List.filter_cons, hyv]
          have h2 : (y :: ys).filter (fun z => reach z == v) =
              y :: ys.filter (fun z => reach z == v) := by
            simp [List.filter_cons, hyv]
          rw [h1, h2, ih, if_neg hx]
        · have h1 : (y :: insertDesc reach x ys).filter (fun z => reach z == v) =
              (insertDesc reach x ys).filter (fun z => reach z == v) := by
            simp [List.filter_cons, hyv]
          have h2 : (y :: ys).filter (fun z => reach z == v) =
              ys.filter (fun z => reach z == v) := by
            simp [List.filter_cons, hyv]
          rw [h1, h2, ih, if_neg hx]

theorem sortDesc_filter (reach : String → Nat) (v : Nat) :
    ∀ l : List String,
      (sortDesc reach l).filter (fun z => reach z == v) =
        l.filter (fun z => reach z == v) := by
  intro l
  induction l with
  | nil => rfl
  | cons x xs ih =>
    rw [sortDesc, insertDesc_filter]
    by_cases hx : reach x = v
    · rw [if_pos hx, ih]
      simp [List.filter_cons, hx]
    · rw [if_neg hx, ih]
      simp [List.filter_cons, hx]

/-! ## Relating the windowed search to the exhaustive one -/

theorem combos_subperm_match {l₁ l₂ : List String} (h : l₁.Perm l₂) (s : Nat)
    {c : List String} (hc : c ∈ combos s l₁) :
    ∃ c' ∈ combos s l₂, c.Perm c' := by
  obtain ⟨hsub, hlen⟩ := (mem_combos l₁ s c).mp hc
  obtain ⟨c', hperm, hsub'⟩ := hsub.subperm.trans h.subperm
  exact ⟨c', (mem_combos l₂ s c').mpr ⟨hsub', by rw [hperm.length_eq, hlen]⟩,
    hperm.symm⟩

theorem listMax_map_combos_le {l₁ l₂ : List String} (h : l₁.Perm l₂)
    (df : DataFrame) (k : Nat) :
    listMax (((List.range k).flatMap (fun i => combos (i + 1) l₁)).map
        (calculate_combined_reach df)) ≤
      listMax (((List.range k).flatMap (fun i => combos (i + 1) l₂)).map
        (calculate_combined_reach df)) := by
  apply listMax_le
  intro x hx
  obtain ⟨c, hc, rfl⟩ := List.mem_map.mp hx
  obtain ⟨i, hi, hci⟩ := List.mem_flatMap.mp hc
  obtain ⟨c', hc', hperm⟩ := combos_subperm_match h (i + 1) hci
  rw [calculate_combined_reach_perm df hperm]
  exact le_listMax_of_mem
    (List.mem_map.mpr ⟨c', List.mem_flatMap.mpr ⟨i, hi, hc'⟩, rfl⟩)

theorem enumCombos_of_small (df : DataFrame) (k : Nat)
    (h : df.features.length ≤ 6) :
    enumCombos df k =
      (List.range k).flatMap (fun i => combos (i + 1) (sortedFeatures df)) := by
  unfold enumCombos
  congr 1
  funext i
  have hlen : (sortedFeatures df).length = df.features.length :=
    sortDesc_length _ _
  have hmin : min (sortedFeatures df).length ((i + 1) + 5) =
      (sortedFeatures df).length := by omega
  rw [hmin, List.take_length]

theorem bestPair_snd (df : DataFrame) (k : Nat) :
    (bestPair df k).2 =
      listMax ((enumCombos df k).map (calculate_combined_reach df)) := by
  unfold bestPair
  rw [foldl_bestStep_snd]
  exact Nat.max_eq_right (Nat.zero_le _)

theorem flatMap_eq_nil_of {α β : Type} (L : List α) (f : α → List β)
    (h : ∀ i ∈ L, f i = []) : L.flatMap f = [] := by
  induction L with
  | nil => rfl
  | cons a t ih =>
    rw [List.flatMap_cons, h a (List.mem_cons_self _ _), List.nil_append]
    exact ih (fun i hi => h i (List.mem_cons_of_mem _ hi))

/-! ## Claim theorems -/

/-- C8: on the concrete 4-respondent, 2-feature matrix of scenario A
(`F1 = [1,1,0,0]`, `F2 = [0,1,1,0]`), `analyze(2)` returns
`best_combination = [F1, F2]`, `max_reach = 3`, `total_respondents = 4`,
`incremental_reach = [2, 3]` and `reach_percentages = [50.0, 75.0]`. -/
theorem claim8_scenarioA :
    (analyze scenarioA 2).best_combination = ["F1", "F2"] ∧
    (analyze scenarioA 2).max_reach = 3 ∧
    (analyze scenarioA 2).total_respondents = 4 ∧
    (analyze scenarioA 2).incremental_reach = [2, 3] ∧
    (analyze scenarioA 2).reach_percentages = [50, 75] := by
  refine ⟨by rfl, by rfl, by rfl, by rfl, ?_⟩
  have h : (analyze scenarioA 2).reach_percentages =
      [2, 3].map (fun c => (c : ℚ) / (4 : ℚ) * 100) := by rfl
  rw [h]
  norm_num

/-- C9: for every reach matrix and feature subset,
`0 ≤ coverage(S) ≤ total_respondents`, coverage of the empty subset is
`0`, and the `max_reach` returned by `analyze` never exceeds
`total_respondents` (which equals the row count). -/
theorem claim9_bounds (df : DataFrame) (k : Nat) (S : List String) :
    0 ≤ calculate_combined_reach df S ∧
    calculate_combined_reach df S ≤ df.rows.length ∧
    calculate_combined_reach df [] = 0 ∧
    (analyze df k).total_respondents = df.rows.length ∧
    (analyze df k).max_reach ≤ (analyze df k).total_respondents := by
  refine ⟨Nat.zero_le _, calculate_combined_reach_le df S, rfl, rfl, ?_⟩
  show (bestPair df k).2 ≤ df.rows.length
  rw [bestPair_snd]
  apply listMax_le
  intro x hx
  obtain ⟨c, _, rfl⟩ := List.mem_map.mp hx
  exact calculate_combined_reach_le df c

/-- C7: on a matrix with zero feature columns, `analyze` returns an
empty `best_combination`, `max_reach = 0`, empty incremental and
percentage sequences, and `total_respondents` equal to the row count. -/
theorem claim7_zero_features (rows : List (List Bool)) (k : Nat) :
    analyze ⟨[], rows⟩ k =
      { best_combination := [], max_reach := 0, incremental_reach := [],
        reach_percentages := [], total_respondents := rows.length } := by
  have henum : enumCombos ⟨[], rows⟩ k = [] := by
    apply flatMap_eq_nil_of
    intro i _
    rfl
  have hbp : bestPair ⟨[], rows⟩ k = ([], 0) := by
    rw [bestPair, henum]
    rfl
  unfold analyze
  rw [hbp]
  rfl

/-- C6: coverage is monotonic — for every matrix, every subset `S` of
its features, and every feature `f` of the matrix not in `S`,
`coverage(S ∪ \x7bf\x7d) ≥ coverage(S)`. -/
theorem claim6_monotonic (df : DataFrame) (S : List String) (f : String)
    (hS : ∀ x ∈ S, x ∈ df.features) (hf : f ∈ df.features) (hfS : f ∉ S) :
    calculate_combined_reach df S ≤ calculate_combined_reach df (S ++ [f]) :=
  calculate_combined_reach_mono df (fun x hx => List.mem_append_left _ hx)

/-- Witness for C6 at a concrete input: `S = [F1]`, `f = F2` on the
scenario-A matrix. -/
theorem claim6_witness :
    ((∀ x ∈ (["F1"] : List String), x ∈ scenarioA.features) ∧
      "F2" ∈ scenarioA.features ∧ "F2" ∉ (["F1"] : List String)) ∧
    calculate_combined_reach scenarioA ["F1"] ≤
      calculate_combined_reach scenarioA (["F1"] ++ ["F2"]) :=
  ⟨⟨by decide, by decide, by decide⟩,
    claim6_monotonic scenarioA ["F1"] "F2" (by decide) (by decide) (by decide)⟩

/-- C4: `analyze` is deterministic — identical inputs give identical
results, field by field. -/
theorem claim4_deterministic (df₁ df₂ : DataFrame) (k₁ k₂ : Nat)
    (hdf : df₁ = df₂) (hk : k₁ = k₂) :
    analyze df₁ k₁ = analyze df₂ k₂ ∧
    (analyze df₁ k₁).best_combination = (analyze df₂ k₂).best_combination ∧
    (analyze df₁ k₁).max_reach = (analyze df₂ k₂).max_reach ∧
    (analyze df₁ k₁).incremental_reach = (analyze df₂ k₂).incremental_reach ∧
    (analyze df₁ k₁).reach_percentages = (analyze df₂ k₂).reach_percentages ∧
    (analyze df₁ k₁).total_respondents = (analyze df₂ k₂).total_respondents := by
  subst hdf
  subst hk
  exact ⟨rfl, rfl, rfl, rfl, rfl, rfl⟩

/-- Witness for C4 at a concrete input: two calls on the scenario-A
matrix with `maxCombinations = 2`. -/
theorem claim4_witness :
    analyze scenarioA 2 = analyze scenarioA 2 ∧
    (analyze scenarioA 2).best_combination = (analyze scenarioA 2).best_combination ∧
    (analyze scenarioA 2).max_reach = (analyze scenarioA 2).max_reach ∧
    (analyze scenarioA 2).incremental_reach = (analyze scenarioA 2).incremental_reach ∧
    (analyze scenarioA 2).reach_percentages = (analyze scenarioA 2).reach_percentages ∧
    (analyze scenarioA 2).total_respondents = (analyze scenarioA 2).total_respondents :=
  claim4_deterministic scenarioA scenarioA 2 2 rfl rfl

/-- Counterexample to C2: with `maxCombinations = 0 < 1` on the valid
scenario-A matrix, `analyze` raises no error at all — it returns a
normal `CombinationResult` (with empty `best_combination` and
`max_reach = 0`), contradicting the claimed `InvalidInput` failure. -/
theorem claim2_counterexample :
    analyze scenarioA 0 =
      { best_combination := [], max_reach := 0, incremental_reach := [],
        reach_percentages := [], total_respondents := 4 } := by rfl

/-- C2 as amended: `analyze` never raises; for `maxCombinations < 1`
(i.e. `0`) it returns an empty result with the matrix's row count, and
for a zero-respondent matrix it returns an empty result with
`total_respondents = 0`. -/
theorem claim2_no_error (df : DataFrame) (features : List String) (k : Nat) :
    analyze df 0 =
      { best_combination := [], max_reach := 0, incremental_reach := [],
        reach_percentages := [], total_respondents := df.rows.length } ∧
    analyze ⟨features, []⟩ k =
      { best_combination := [], max_reach := 0, incremental_reach := [],
        reach_percentages := [], total_respondents := 0 } := by
  constructor
  · rfl
  · have hcov : ∀ c, calculate_combined_reach ⟨features, []⟩ c = 0 := by
      intro c
      unfold calculate_combined_reach
      split
      · rfl
      · rfl
    have hbp : bestPair ⟨features, []⟩ k = ([], 0) := by
      unfold bestPair
      exact foldl_bestStep_no_improve _ (fun c _ => le_of_eq (hcov c)) []
    unfold analyze
    rw [hbp]
    rfl

/-- Counterexample to C1: on an 8-feature matrix, the `size + 5`
narrowing makes `analyze(2)` report `max_reach = 6`, although the
size-2 subset `[f1, f8]` (a subset enumerated by the claim's exhaustive
search) has coverage `10`. -/
theorem claim1_counterexample :
    (analyze cexDF 2).max_reach = 6 ∧
    maxCoverage cexDF 2 = 10 ∧
    ["f1", "f8"] ∈ specEnumCombos cexDF 2 ∧
    calculate_combined_reach cexDF ["f1", "f8"] = 10 := by
  refine ⟨by rfl, by rfl, by decide, by rfl⟩

/-- Counterexample to C3: on the 8-feature matrix,
`best_combination = [f1]` has coverage `6`, yet the enumeration the
claim describes (all combinations over the full sorted feature list,
here equal to the original feature list) contains `[f1, f8]` with
coverage `10` — so `best_combination` is not the first subset of that
enumeration attaining the maximum coverage (it never attains it).
Moreover, on an all-zero matrix every candidate's coverage equals the
maximum `0`, yet `best_combination` is empty rather than the first
enumerated subset `[Z]`. -/
theorem claim3_counterexample :
    (sortedFeatures cexDF = cexDF.features ∧
      (analyze cexDF 2).best_combination = ["f1"] ∧
      calculate_combined_reach cexDF ["f1"] = 6 ∧
      ["f1", "f8"] ∈ specEnumCombos cexDF 2 ∧
      calculate_combined_reach cexDF ["f1", "f8"] = 10) ∧
    ((analyze zeroDF 1).max_reach = 0 ∧
      enumCombos zeroDF 1 = [["Z"]] ∧
      calculate_combined_reach zeroDF ["Z"] = 0 ∧
      (analyze zeroDF 1).best_combination = []) := by
  exact ⟨⟨by rfl, by rfl, by rfl, by decide, by rfl⟩,
    ⟨by rfl, by rfl, by rfl, by rfl⟩⟩

/-- C1 as amended: for a matrix with at least one respondent and at
least one feature, `maxCombinations ≥ 1`, and at most 6 features (so
every per-size window `size + 5 ≥ 6` covers the whole feature list and
the narrowing is vacuous), `analyze`'s `max_reach` equals the maximum
coverage over every non-empty subset of the feature set of size at most
`maxCombinations`; that maximum bounds every such subset's coverage and
is attained by one of them. -/
theorem claim1_exhaustive_small (df : DataFrame) (k : Nat)
    (hrows : 1 ≤ df.rows.length) (hfeat : 1 ≤ df.features.length)
    (hk : 1 ≤ k) (hsmall : df.features.length ≤ 6) :
    (analyze df k).max_reach = maxCoverage df k ∧
    (∀ S, S.Sublist df.features → S ≠ [] → S.length ≤ k →
      calculate_combined_reach df S ≤ (analyze df k).max_reach) ∧
    (∃ S, S.Sublist df.features ∧ S ≠ [] ∧ S.length ≤ k ∧
      calculate_combined_reach df S = (analyze df k).max_reach) := by
  have hperm : (sortedFeatures df).Perm df.features := sortDesc_perm _ _
  have hmain : (analyze df k).max_reach = maxCoverage df k := by
    show (bestPair df k).2 = maxCoverage df k
    rw [bestPair_snd, enumCombos_of_small df k hsmall, maxCoverage, specEnumCombos]
    exact le_antisymm (listMax_map_combos_le hperm df k)
      (listMax_map_combos_le hperm.symm df k)
  refine ⟨hmain, ?_, ?_⟩
  · intro S hsub hne hlen
    rw [hmain, maxCoverage]
    apply le_listMax_of_mem
    apply List.mem_map.mpr
    refine ⟨S, ?_, rfl⟩
    rw [specEnumCombos]
    apply List.mem_flatMap.mpr
    have hpos : 1 ≤ S.length := by
      cases S with
      | nil => exact absurd rfl hne
      | cons a t => exact Nat.succ_le_succ (Nat.zero_le _)
    refine ⟨S.length - 1, List.mem_range.mpr (by omega), ?_⟩
    rw [mem_combos]
    exact ⟨hsub, by omega⟩
  · rw [hmain, maxCoverage]
    rcases listMax_eq_zero_or_mem
        ((specEnumCombos df k).map (calculate_combined_reach df)) with h0 | hm
    · obtain ⟨f, rest, hfr⟩ : ∃ f rest, df.features = f :: rest := by
        cases hfe : df.features with
        | nil => rw [hfe] at hfeat; simp at hfeat
        | cons f rest => exact ⟨f, rest, rfl⟩
      have hmem : [f] ∈ specEnumCombos df k := by
        rw [specEnumCombos]
        apply List.mem_flatMap.mpr
        refine ⟨0, List.mem_range.mpr (by omega), ?_⟩
        rw [mem_combos]
        exact ⟨by rw [hfr]; exact (List.nil_sublist rest).cons₂ f, rfl⟩
      refine ⟨[f], by rw [hfr]; exact (List.nil_sublist rest).cons₂ f,
        by simp, by simpa using hk, ?_⟩
      have hle : calculate_combined_reach df [f] ≤ 0 := by
        rw [← h0]
        exact le_listMax_of_mem (List.mem_map.mpr ⟨[f], hmem, rfl⟩)
      omega
    · obtain ⟨S, hS, hval⟩ := List.mem_map.mp hm
      obtain ⟨i, hi, hSi⟩ := List.mem_flatMap.mp hS
      obtain ⟨hsub, hlen⟩ := (mem_combos _ _ _).mp hSi
      refine ⟨S, hsub, ?_, ?_, hval⟩
      · intro hnil
        rw [hnil] at hlen
        exact Nat.succ_ne_zero i hlen.symm
      · rw [hlen]
        exact Nat.succ_le_of_lt (List.mem_range.mp hi)

/-- Witness for C1 (amended) at a concrete input: the scenario-A matrix
with `maxCombinations = 2`. -/
theorem claim1_witness :
    (1 ≤ scenarioA.rows.length ∧ 1 ≤ scenarioA.features.length ∧
      1 ≤ 2 ∧ scenarioA.features.length ≤ 6) ∧
    ((analyze scenarioA 2).max_reach = maxCoverage scenarioA 2 ∧
    (∀ S, S.Sublist scenarioA.features → S ≠ [] → S.length ≤ 2 →
      calculate_combined_reach scenarioA S ≤ (analyze scenarioA 2).max_reach) ∧
    (∃ S, S.Sublist scenarioA.features ∧ S ≠ [] ∧ S.length ≤ 2 ∧
      calculate_combined_reach scenarioA S = (analyze scenarioA 2).max_reach)) :=
  ⟨⟨by decide, by decide, by decide, by decide⟩,
    claim1_exhaustive_small scenarioA 2 (by decide) (by decide) (by decide) (by decide)⟩

/-! ## Helpers for the result invariants -/

theorem take_subset_take {α : Type} (l : List α) {m n : Nat} (h : m ≤ n) :
    l.take m ⊆ l.take n := by
  intro x hx
  have heq : l.take m = (l.take n).take m := by
    rw [List.take_take, min_eq_left h]
  rw [heq] at hx
  exact List.take_subset _ _ hx

theorem incrementalReach_length (df : DataFrame) (best : List String) :
    (incrementalReach df best).length = best.length := by
  unfold incrementalReach
  rw [List.length_map, List.length_range]

theorem incrementalReach_getElem (df : DataFrame) (best : List String) (i : Nat)
    (h : i < (incrementalReach df best).length) :
    (incrementalReach df best)[i] =
      calculate_combined_reach df (best.take (i + 1)) := by
  unfold incrementalReach at h ⊢
  rw [List.getElem_map, List.getElem_range]

theorem bestPair_fst_coverage (df : DataFrame) (k : Nat)
    (h : (bestPair df k).1 ≠ []) :
    calculate_combined_reach df (bestPair df k).1 = (bestPair df k).2 := by
  rcases foldl_bestStep_attains (calculate_combined_reach df)
      (enumCombos df k) [] 0 with heq | hr
  · exfalso
    apply h
    show ((enumCombos df k).foldl (bestStep (calculate_combined_reach df)) ([], 0)).1 = []
    rw [heq]
  · exact hr

/-- C3 as amended: the feature list is sorted by descending individual
coverage with ties broken by original column position (the sort is
stable), equal-coverage candidates never displace the current best, and
hence — over the *narrowed* enumeration `analyze` actually performs
(windows `sorted_features[:min(M, size+5)]` per size) — when
`max_reach > 0` the returned `best_combination` is the first candidate
of that enumeration attaining `max_reach`, and when `max_reach = 0` the
returned `best_combination` is empty. -/
theorem claim3_first_attainer (df : DataFrame) (k : Nat) :
    (sortedFeatures df).Pairwise
      (fun a b => calculate_combined_reach df [b] ≤ calculate_combined_reach df [a]) ∧
    (∀ v, (sortedFeatures df).filter
        (fun f => calculate_combined_reach df [f] == v) =
      df.features.filter (fun f => calculate_combined_reach df [f] == v)) ∧
    ((analyze df k).max_reach = 0 → (analyze df k).best_combination = []) ∧
    (0 < (analyze df k).max_reach →
      ∃ pre post,
        enumCombos df k = pre ++ (analyze df k).best_combination :: post ∧
        calculate_combined_reach df (analyze df k).best_combination =
          (analyze df k).max_reach ∧
        ∀ c ∈ pre, calculate_combined_reach df c < (analyze df k).max_reach) := by
  refine ⟨sortDesc_pairwise _ df.features,
    fun v => sortDesc_filter _ v df.features, ?_, ?_⟩
  · intro h0
    exact foldl_bestStep_fst_of_snd_eq (calculate_combined_reach df)
      (enumCombos df k) [] 0 h0
  · intro hpos
    exact foldl_bestStep_first (calculate_combined_reach df)
      (enumCombos df k) [] 0 hpos

/-- Witness for C3 (amended) at a concrete input: on the scenario-A
matrix with `maxCombinations = 2`, `max_reach = 3 > 0` and the theorem
produces the first-attainer decomposition. -/
theorem claim3_witness :
    0 < (analyze scenarioA 2).max_reach ∧
    (∃ pre post,
      enumCombos scenarioA 2 =
        pre ++ (analyze scenarioA 2).best_combination :: post ∧
      calculate_combined_reach scenarioA (analyze scenarioA 2).best_combination =
        (analyze scenarioA 2).max_reach ∧
      ∀ c ∈ pre, calculate_combined_reach scenarioA c <
        (analyze scenarioA 2).max_reach) :=
  ⟨by decide, (claim3_first_attainer scenarioA 2).2.2.2 (by decide)⟩

/-- C5: in every result, the incremental and percentage sequences have
the same length as `best_combination`, `incremental_reach` is
non-decreasing, its last entry equals `max_reach` whenever
`best_combination` is non-empty, and each percentage is the
corresponding incremental count divided by `total_respondents` times
100. -/
theorem claim5_result_invariants (df : DataFrame) (k : Nat) :
    (analyze df k).incremental_reach.length =
      (analyze df k).best_combination.length ∧
    (analyze df k).reach_percentages.length =
      (analyze df k).best_combination.length ∧
    (∀ i, ∀ h1 : i < (analyze df k).incremental_reach.length,
      ∀ h2 : i + 1 < (analyze df k).incremental_reach.length,
      (analyze df k).incremental_reach[i] ≤
        (analyze df k).incremental_reach[i + 1]) ∧
    ((analyze df k).best_combination ≠ [] →
      (analyze df k).incremental_reach.getLast? =
        some (analyze df k).max_reach) ∧
    (analyze df k).reach_percentages =
      (analyze df k).incremental_reach.map
        (fun c : Nat => (c : ℚ) / ((analyze df k).total_respondents : ℚ) * 100) := by
  refine ⟨incrementalReach_length df _, ?_, ?_, ?_, rfl⟩
  · show ((incrementalReach df (bestPair df k).1).map
        (fun c : Nat => (c : ℚ) / (df.rows.length : ℚ) * 100)).length =
      (bestPair df k).1.length
    rw [List.length_map, incrementalReach_length]
  · intro i h1 h2
    show (incrementalReach df (bestPair df k).1)[i] ≤
      (incrementalReach df (bestPair df k).1)[i + 1]
    rw [incrementalReach_getElem df _ i h1,
      incrementalReach_getElem df _ (i + 1) h2]
    exact calculate_combined_reach_mono df
      (fun x hx => take_subset_take _ (by omega) hx)
  · intro hne
    have hlen : (incrementalReach df (bestPair df k).1).length =
        (bestPair df k).1.length := incrementalReach_length df _
    have hpos : 0 < (bestPair df k).1.length := List.length_pos.mpr hne
    have hidx : (bestPair df k).1.length - 1 <
        (incrementalReach df (bestPair df k).1).length := by omega
    show (incrementalReach df (bestPair df k).1).getLast? =
      some (bestPair df k).2
    rw [List.getLast?_eq_getElem?, hlen,
      List.getElem?_eq_getElem hidx,
      incrementalReach_getElem df _ _ hidx]
    have htake : (bestPair df k).1.take ((bestPair df k).1.length - 1 + 1) =
        (bestPair df k).1 := by
      have : (bestPair df k).1.length - 1 + 1 = (bestPair df k).1.length := by
        omega
      rw [this, List.take_length]
    rw [htake, bestPair_fst_coverage df k hne]

/-- Witness for C5 at a concrete input: the scenario-A matrix with
`maxCombinations = 2`, whose `best_combination` is non-empty, with the
adjacent-index hypotheses discharged at `i = 0`. -/
theorem claim5_witness :
    ((0 : Nat) < (analyze scenarioA 2).incremental_reach.length ∧
      (0 : Nat) + 1 < (analyze scenarioA 2).incremental_reach.length ∧
      (analyze scenarioA 2).best_combination ≠ []) ∧
    (analyze scenarioA 2).incremental_reach.length =
      (analyze scenarioA 2).best_combination.length ∧
    (analyze scenarioA 2).reach_percentages.length =
      (analyze scenarioA 2).best_combination.length ∧
    (analyze scenarioA 2).incremental_reach.getLast? =
      some (analyze scenarioA 2).max_reach :=
  ⟨⟨by decide, by decide, by decide⟩,
    (claim5_result_invariants scenarioA 2).1,
    (claim5_result_invariants scenarioA 2).2.1,
    (claim5_result_invariants scenarioA 2).2.2.2.1 (by decide)⟩

/-- Characterisation of the per-cell check: a Python scalar passes
`set(unique_vals).issubset({0, 1, True, False})` exactly when it equals
(in Python's sense) one of `0`, `1`, `True`, `False`. -/
theorem validValue_iff (v : PyVal) :
    validValue v = true ↔
      (v = .int 0 ∨ v = .int 1 ∨ v = .bool true ∨ v = .bool false) := by
  cases v with
  | int n =>
    simp only [validValue, Bool.or_eq_true, decide_eq_true_eq]
    constructor
    · rintro (rfl | rfl)
      · exact Or.inl rfl
      · exact Or.inr (Or.inl rfl)
    · rintro (h | h | h | h)
      · exact Or.inl (by injection h)
      · exact Or.inr (by injection h)
      · simp at h
      · simp at h
  | bool b => cases b <;> simp [validValue]
  | str s => simp [validValue]

/-- C10: `validate_data(df)` returns `True` exactly when `df` has at
least one column, at least one row, and every value appearing in every
column is one of `0`, `1`, `True`, `False`; it is a total boolean-valued
function (it cannot raise). -/
theorem claim10_validate_data (df : RawFrame) :
    validate_data df = true ↔
      (1 ≤ df.colNames.length ∧ 1 ≤ df.rows.length ∧
        ∀ j < df.colNames.length, ∀ row ∈ df.rows,
          (row.getD j (.int 0) = PyVal.int 0 ∨
           row.getD j (.int 0) = PyVal.int 1 ∨
           row.getD j (.int 0) = PyVal.bool true ∨
           row.getD j (.int 0) = PyVal.bool false)) := by
  unfold validate_data
  by_cases h1 : df.colNames.length = 0
  · rw [if_pos h1]
    constructor
    · intro hf
      exact absurd hf (by simp)
    · rintro ⟨hc, _, _⟩
      omega
  · rw [if_neg h1]
    by_cases h2 : df.rows.length = 0
    · rw [if_pos h2]
      constructor
      · intro hf
        exact absurd hf (by simp)
      · rintro ⟨_, hr, _⟩
        omega
    · rw [if_neg h2]
      constructor
      · intro hall
        refine ⟨by omega, by omega, ?_⟩
        intro j hj row hrow
        have hcol := List.all_eq_true.mp hall j (List.mem_range.mpr hj)
        have hcell := List.all_eq_true.mp hcol row hrow
        exact (validValue_iff _).mp hcell
      · rintro ⟨_, _, hv⟩
        apply List.all_eq_true.mpr
        intro j hj
        apply List.all_eq_true.mpr
        intro row hrow
        exact (validValue_iff _).mpr (hv j (List.mem_range.mp hj) row hrow)

/-- Witness for C10 at a concrete input: a one-column two-row frame of
`1` and `0` validates. -/
theorem claim10_witness :
    validate_data { colNames := ["a"], rows := [[.int 1], [.int 0]] } = true :=
  (claim10_validate_data { colNames := ["a"], rows := [[.int 1], [.int 0]] }).mpr
    ⟨by decide, by decide, by decide⟩
